import Mathlib

/-!
Verification of the luxem-python binding (`src/_luxem.c`) against its
specification. The binding wraps the luxem C engine (raw reader, raw writer,
ascii16 transcoder); the engine itself ships as separate C sources that are
not part of the binding file, so the engine behaviour is modelled here from
the specification, while the dispatch logic of the binding (argument
checking, error translation, sink selection, `dump`) is translated directly
from `src/_luxem.c`.

Bytes are modelled as `Fin 256`; byte strings as `List Char` where only the
textual content matters.
-/

namespace Luxem

/-! ## ascii16 transcoder -/

/-- A byte, as handled by the transcoder. -/
abbrev Byte := Fin 256

/-- Modelled from the spec: the encoder half of the transcoder
(`luxem_to_ascii16` lives in the bundled C engine, outside `src/`). The
spec describes a deterministic, total, length-doubling mapping of bytes
into the hexadecimal-digit alphabet; each nibble becomes one digit. -/
def hexDigit : Nat → Char
  | 0 => '0'
  | 1 => '1'
  | 2 => '2'
  | 3 => '3'
  | 4 => '4'
  | 5 => '5'
  | 6 => '6'
  | 7 => '7'
  | 8 => '8'
  | 9 => '9'
  | 10 => 'a'
  | 11 => 'b'
  | 12 => 'c'
  | 13 => 'd'
  | 14 => 'e'
  | 15 => 'f'
  | _ => '0'

/-- Membership in the hexadecimal alphabet accepted by the decoder. -/
def isHexChar (c : Char) : Bool :=
  ('0' ≤ c && c ≤ '9') || ('a' ≤ c && c ≤ 'f')

/-- Numeric value of a hexadecimal digit. -/
def hexVal (c : Char) : Nat :=
  if c ≤ '9' then c.toNat - 48 else c.toNat - 87

/-- Modelled from the spec: `to_ascii16` encoding (`luxem_to_ascii16` in the
C engine, outside `src/`): high nibble digit then low nibble digit, for each
byte in order. -/
def toAscii16 : List Byte → List Char
  | [] => []
  | x :: rest => hexDigit (x.val / 16) :: hexDigit (x.val % 16) :: toAscii16 rest

/-- Modelled from the spec: the decoder loop of `from_ascii16`
(`luxem_from_ascii16` in the C engine, outside `src/`). Scans left to right
two characters at a time; a character outside the hexadecimal alphabet is an
error at that character's offset, a trailing lone character means the input
length was odd. `i` is the offset of the first unread character. -/
def fromAscii16Aux (i : Nat) : List Char → Except (String × Nat) (List Byte)
  | [] => .ok []
  | [c] =>
    if isHexChar c then .error ("odd-length ascii16 input", i)
    else .error ("invalid ascii16 character", i)
  | c1 :: c2 :: rest =>
    if isHexChar c1 then
      if isHexChar c2 then
        match fromAscii16Aux (i + 2) rest with
        | .error e => .error e
        | .ok out =>
          .ok (⟨(hexVal c1 * 16 + hexVal c2) % 256, Nat.mod_lt _ (by norm_num)⟩ :: out)
      else .error ("invalid ascii16 character", i + 1)
    else .error ("invalid ascii16 character", i)

/-- Modelled from the spec: `from_ascii16` decoding; fails with a message and
the offset of the offending character. -/
def fromAscii16 (s : List Char) : Except (String × Nat) (List Byte) :=
  fromAscii16Aux 0 s

/-! ## Parser (raw reader) -/

/-- A nesting-stack entry: an open object or an open array. -/
inductive Frame
  | obj
  | arr
  deriving DecidableEq

/-- What kind of token a quoted run is producing. -/
inductive QKind
  | qkey
  | qprim
  deriving DecidableEq

/-- Parser phase: what the state machine is awaiting, including a possibly
partial pending token that spans chunk boundaries. `expectValue typed` notes
whether a type tag has already been attached to the awaited value. -/
inductive Phase
  | expectValue (typed : Bool)
  | expectKey
  | afterKey
  | afterValue
  | inQuote (k : QKind) (acc : List Char)
  | inType (acc : List Char)
  deriving DecidableEq

/-- Modelled from the spec: parser state of the raw reader
(`luxem_rawread_context_t` in the C engine, outside `src/`): nesting stack,
awaiting-kind with pending partial token, and the monotonic cumulative byte
position since construction. -/
structure PState where
  stack : List Frame
  phase : Phase
  pos : Nat
  deriving DecidableEq

/-- The event vocabulary delivered to the registered listener. -/
inductive Event
  | objectBegin
  | objectEnd
  | arrayBegin
  | arrayEnd
  | key (s : List Char)
  | type (s : List Char)
  | primitive (s : List Char)
  deriving DecidableEq

/-- Errors a feed operation can report: an engine-detected grammar violation
carrying a message and the cumulative byte position, or the opaque marker
that an externally supplied listener callback already failed. -/
inductive FeedError
  | syntaxError (message : String) (position : Nat)
  | callbackFailure
  deriving DecidableEq

/-- Initial parser state: top level, awaiting a value, position zero. -/
def initState : PState :=
  { stack := [], phase := .expectValue false, pos := 0 }

/-- Whitespace skipped between tokens. -/
def isWs (c : Char) : Bool :=
  c = ' ' || c = '\n' || c = '\t' || c = '\r'

/-- Modelled from the spec: one byte of the raw reader's state machine
(the engine's per-character transition, outside `src/`). Emits at most one
event per byte, buffers partial tokens in the phase, and advances the
cumulative position by exactly one on every consumed byte. -/
def step (st : PState) (c : Char) : Except (String × Nat) (PState × Option Event) :=
  let p := st.pos + 1
  match st.phase with
  | .expectValue typed =>
    if isWs c then .ok ({ st with pos := p }, none)
    else if c = '\x7b' then
      .ok ({ stack := .obj :: st.stack, phase := .expectKey, pos := p }, some .objectBegin)
    else if c = '[' then
      .ok ({ stack := .arr :: st.stack, phase := .expectValue false, pos := p }, some .arrayBegin)
    else if c = '"' then .ok ({ st with phase := .inQuote .qprim [], pos := p }, none)
    else if c = '(' then
      if typed then .error ("value already has a type", st.pos)
      else .ok ({ st with phase := .inType [], pos := p }, none)
    else if c = ']' then
      if typed then .error ("dangling type before array end", st.pos)
      else
        match st.stack with
        | .arr :: rest => .ok ({ stack := rest, phase := .afterValue, pos := p }, some .arrayEnd)
        | _ => .error ("unexpected array end", st.pos)
    else .error ("expected value", st.pos)
  | .expectKey =>
    if isWs c then .ok ({ st with pos := p }, none)
    else if c = '"' then .ok ({ st with phase := .inQuote .qkey [], pos := p }, none)
    else if c = '\x7d' then
      match st.stack with
      | .obj :: rest => .ok ({ stack := rest, phase := .afterValue, pos := p }, some .objectEnd)
      | _ => .error ("unexpected object end", st.pos)
    else .error ("expected key", st.pos)
  | .afterKey =>
    if isWs c then .ok ({ st with pos := p }, none)
    else if c = ':' then .ok ({ st with phase := .expectValue false, pos := p }, none)
    else .error ("expected key separator", st.pos)
  | .afterValue =>
    if isWs c then .ok ({ st with pos := p }, none)
    else if c = ',' then
      match st.stack with
      | .obj :: _ => .ok ({ st with phase := .expectKey, pos := p }, none)
      | .arr :: _ => .ok ({ st with phase := .expectValue false, pos := p }, none)
      | [] => .error ("content after top-level value", st.pos)
    else if c = '\x7d' then
      match st.stack with
      | .obj :: rest => .ok ({ stack := rest, phase := .afterValue, pos := p }, some .objectEnd)
      | _ => .error ("unexpected object end", st.pos)
    else if c = ']' then
      match st.stack with
      | .arr :: rest => .ok ({ stack := rest, phase := .afterValue, pos := p }, some .arrayEnd)
      | _ => .error ("unexpected array end", st.pos)
    else .error ("expected separator or end", st.pos)
  | .inQuote k acc =>
    if c = '"' then
      match k with
      | .qkey => .ok ({ st with phase := .afterKey, pos := p }, some (.key acc))
      | .qprim => .ok ({ st with phase := .afterValue, pos := p }, some (.primitive acc))
    else .ok ({ st with phase := .inQuote k (acc ++ [c]), pos := p }, none)
  | .inType acc =>
    if c = ')' then .ok ({ st with phase := .expectValue true, pos := p }, some (.type acc))
    else .ok ({ st with phase := .inType (acc ++ [c]), pos := p }, none)

/-- Modelled from the spec: the engine's chunk-processing loop together with
event delivery to the registered listener. `f` decides, for each event,
whether the listener call succeeds (`translate_rawread_*` in `src/_luxem.c`
report a Python callback failure by returning false with the opaque marker).
The first component is the list of events successfully delivered during the
call; a failed delivery aborts immediately with `callbackFailure`. -/
def run (f : Event → Bool) : PState → List Char → List Event × Except FeedError PState
  | st, [] => ([], .ok st)
  | st, c :: rest =>
    match step st c with
    | .error e => ([], .error (.syntaxError e.1 e.2))
    | .ok (st', none) => run f st' rest
    | .ok (st', some ev) =>
      if f ev then (ev :: (run f st' rest).1, (run f st' rest).2)
      else ([], .error .callbackFailure)

/-- Modelled from the spec: the end-of-input check performed when
`finish=true`: the document must be complete and balanced; any open
structure or pending partial token is a syntax error at the cumulative
position. -/
def finalize (st : PState) : Except FeedError Unit :=
  match st.stack, st.phase with
  | [], .afterValue => .ok ()
  | [], .expectValue false => .ok ()
  | _, _ => .error (.syntaxError "incomplete document" st.pos)

/-- The bytes branch of `Reader_feed` in `src/_luxem.c` over the modelled
engine: processes the whole chunk, applies the finish check when requested,
and on success reports the number of consumed bytes. -/
def feed (f : Event → Bool) (st : PState) (chunk : List Char) (finish : Bool) :
    List Event × Except FeedError (PState × Nat) :=
  match run f st chunk with
  | (evs, .error e) => (evs, .error e)
  | (evs, .ok st') =>
    if finish then
      match finalize st' with
      | .ok _ => (evs, .ok (st', chunk.length))
      | .error e => (evs, .error e)
    else (evs, .ok (st', chunk.length))

/-- Feeding a sequence of chunks to one reader instance: `finish=false` on
all but the last chunk, `finish=true` on the last. -/
def feedChunks (f : Event → Bool) (st : PState) :
    List (List Char) → List Event × Except FeedError (PState × Nat)
  | [] => ([], .ok (st, 0))
  | chunk :: rest =>
    if rest.isEmpty then feed f st chunk true
    else
      match feed f st chunk false with
      | (evs, .error e) => (evs, .error e)
      | (evs, .ok (st', _)) =>
        (evs ++ (feedChunks f st' rest).1, (feedChunks f st' rest).2)

/-- A listener whose callbacks all succeed. -/
def pureListener : Event → Bool := fun _ => true

/-- Exception values surfaced to Python, as raised by `src/_luxem.c`:
`TypeError` and `ValueError` with a message, or the pass-through of a Python
exception already set by a failed embedder callback. -/
inductive PyExc
  | typeError (m : String)
  | valueError (m : String)
  | passThrough
  deriving DecidableEq

/-- `format_context_error` from `src/_luxem.c`: a real engine error is
re-raised as a `ValueError` carrying the message and the offset; the opaque
callback-failure marker leaves the embedder's own exception in place,
unmodified. -/
def format_context_error : FeedError → PyExc
  | .syntaxError m p => .valueError (m ++ " [offset " ++ toString p ++ "]")
  | .callbackFailure => .passThrough

/-! ## Streamed feeding (`feed_stream`) -/

/-- Observable actions of a streamed feed: invoking the suspend hook,
performing the physical blocking read, invoking the resume hook, and doing
parsing work (delivering bytes to the state machine). -/
inductive Action
  | suspend
  | readAct
  | resume
  | work
  deriving DecidableEq

/-- Modelled from the spec: the engine's blocking-source loop
(`luxem_rawread_feed_file`, outside `src/`), hooked up to the binding's
suspend/resume pair (`feed_unlock_gil` / `feed_lock_gil` in `src/_luxem.c`).
Each iteration invokes suspend, performs one physical read, invokes resume,
and only then delivers the bytes read to the state machine; an exhausted
source (a read returning no bytes) triggers the finish check. On a parse
error the loop terminates early, after the resume of the read that produced
the offending bytes. The first component is the observable action trace. -/
def feedFile (f : Event → Bool) (st : PState) :
    List (List Char) → List Action × (List Event × Except FeedError PState)
  | [] =>
    ([Action.suspend, Action.readAct, Action.resume, Action.work],
     ([], match finalize st with
          | .ok _ => .ok st
          | .error e => .error e))
  | chunk :: rest =>
    match run f st chunk with
    | (evs, .error e) =>
      ([Action.suspend, Action.readAct, Action.resume, Action.work], (evs, .error e))
    | (evs, .ok st') =>
      (Action.suspend :: Action.readAct :: Action.resume :: Action.work :: (feedFile f st' rest).1,
       (evs ++ (feedFile f st' rest).2.1, (feedFile f st' rest).2.2))

/-- Strict suspend/resume pairing of an action trace: every suspend is
immediately followed by one physical read and its matching resume (no
nesting, no parsing work inside the window), a resume never occurs without a
prior suspend, reads occur only inside suspend windows, and parsing work
occurs only outside them. -/
def paired : List Action → Bool
  | [] => true
  | Action.suspend :: Action.readAct :: Action.resume :: rest => paired rest
  | Action.work :: rest => paired rest
  | _ => false

/-! ## Writer (raw writer) -/

/-- A `target` supplied to the Writer constructor: a file-like byte stream,
or a callable sink. `Writer_init` in `src/_luxem.c` distinguishes the two
with a file check; absence of a target selects the buffer sink. -/
inductive Target
  | file
  | callbackTarget (f : List Char → Bool)

/-- The writer's output sink, fixed at construction: a growable buffer, a
caller-owned blocking stream, or an external callback that may fail. The
accumulator of `stream` records the bytes written so far for modelling
purposes. -/
inductive Sink
  | buffer (acc : List Char)
  | stream (acc : List Char)
  | callback (f : List Char → Bool)

/-- Writer engine errors: a descriptive message, or the opaque marker of a
failed sink callback (mirroring the sentinel-pointer technique of
`translate_rawwrite_write` in `src/_luxem.c`). -/
inductive WErr
  | message (m : String)
  | callbackFailure

/-- Emit one byte run through the sink. Buffer and stream sinks always
succeed and accumulate; a callback sink fails opaquely when the external
function fails. -/
def writeOut (s : Sink) (bytes : List Char) : Except WErr Sink :=
  match s with
  | .buffer acc => .ok (.buffer (acc ++ bytes))
  | .stream acc => .ok (.stream (acc ++ bytes))
  | .callback f => if f bytes then .ok (.callback f) else .error .callbackFailure

/-- What the writer currently awaits at the innermost level. -/
inductive WAwait
  | key
  | value
  deriving DecidableEq

/-- Modelled from the spec: writer state (`luxem_rawwrite_context_t` in the
C engine, outside `src/`): nesting stack, per-level awaiting state mirroring
the parser's, whether a type tag is already attached to the awaited value,
and the bound sink. -/
structure WriterSt where
  sink : Sink
  stack : List Frame
  await : WAwait
  hasType : Bool

/-- The awaiting state after completing a value, determined by the enclosing
frame: a key inside an object, a value otherwise. -/
def awaitAfterValue : List Frame → WAwait
  | .obj :: _ => .key
  | _ => .value

/-- Modelled from the spec: `luxem_rawwrite_object_begin` (C engine, outside
`src/`): valid only when a value is awaited; emits the opening delimiter and
opens an object frame awaiting a key. -/
def luxem_rawwrite_object_begin (w : WriterSt) : Except WErr WriterSt :=
  match w.await with
  | .value =>
    match writeOut w.sink ['\x7b'] with
    | .error e => .error e
    | .ok s' => .ok { sink := s', stack := .obj :: w.stack, await := .key, hasType := false }
  | .key => .error (.message "expected a key")

/-- Modelled from the spec: `luxem_rawwrite_object_end` (C engine, outside
`src/`): valid only when the innermost open frame is an object with no value
pending; emits the closing delimiter at the parent level. -/
def luxem_rawwrite_object_end (w : WriterSt) : Except WErr WriterSt :=
  match w.stack, w.await with
  | .obj :: rest, .key =>
    match writeOut w.sink ['\x7d'] with
    | .error e => .error e
    | .ok s' => .ok { sink := s', stack := rest, await := awaitAfterValue rest, hasType := false }
  | _, _ => .error (.message "mismatched object end")

/-- Modelled from the spec: `luxem_rawwrite_array_begin` (C engine, outside
`src/`). -/
def luxem_rawwrite_array_begin (w : WriterSt) : Except WErr WriterSt :=
  match w.await with
  | .value =>
    match writeOut w.sink ['['] with
    | .error e => .error e
    | .ok s' => .ok { sink := s', stack := .arr :: w.stack, await := .value, hasType := false }
  | .key => .error (.message "expected a key")

/-- Modelled from the spec: `luxem_rawwrite_array_end` (C engine, outside
`src/`): valid only when the innermost open frame is an array and no
dangling type tag awaits its value. -/
def luxem_rawwrite_array_end (w : WriterSt) : Except WErr WriterSt :=
  match w.stack, w.hasType with
  | .arr :: rest, false =>
    match writeOut w.sink [']'] with
    | .error e => .error e
    | .ok s' => .ok { sink := s', stack := rest, await := awaitAfterValue rest, hasType := false }
  | _, _ => .error (.message "mismatched array end")

/-- Modelled from the spec: `luxem_rawwrite_key` (C engine, outside `src/`):
valid only directly inside an object awaiting a key. -/
def luxem_rawwrite_key (s : List Char) (w : WriterSt) : Except WErr WriterSt :=
  match w.stack, w.await with
  | .obj :: _, .key =>
    match writeOut w.sink ('"' :: s ++ ['"', ':']) with
    | .error e => .error e
    | .ok s' => .ok { w with sink := s', await := .value }
  | _, _ => .error (.message "key not expected here")

/-- Modelled from the spec: `luxem_rawwrite_type` (C engine, outside `src/`):
valid only when a value is awaited and no type is already attached. -/
def luxem_rawwrite_type (s : List Char) (w : WriterSt) : Except WErr WriterSt :=
  match w.await, w.hasType with
  | .value, false =>
    match writeOut w.sink ('(' :: s ++ [')']) with
    | .error e => .error e
    | .ok s' => .ok { w with sink := s', hasType := true }
  | .value, true => .error (.message "value already has a type")
  | .key, _ => .error (.message "type not allowed before a key")

/-- Modelled from the spec: `luxem_rawwrite_primitive` (C engine, outside
`src/`): valid only when a value is awaited; completes the value. -/
def luxem_rawwrite_primitive (s : List Char) (w : WriterSt) : Except WErr WriterSt :=
  match w.await with
  | .value =>
    match writeOut w.sink ('"' :: s ++ ['"']) with
    | .error e => .error e
    | .ok s' =>
      .ok { sink := s', stack := w.stack, await := awaitAfterValue w.stack, hasType := false }
  | .key => .error (.message "expected a key")

/-- A Python result value returned by a Writer method: the writer object
itself (for chaining) or a bytes object (from `dump`). -/
inductive PyValue
  | writerSelf (w : WriterSt)
  | pyBytes (b : List Char)

/-- An argument passed to a string-taking Writer method: a Python string, or
any non-string object. -/
inductive PyArg
  | str (s : List Char)
  | nonString

/-- `translate_void_method` from `src/_luxem.c`: invokes the engine method;
on success returns the writer itself; a descriptive engine error becomes a
`ValueError`, the opaque sink-callback marker passes the embedder's own
exception through. The second component is the state of the writer object
after the call. -/
def translate_void_method (method : WriterSt → Except WErr WriterSt) (w : WriterSt) :
    (Except PyExc PyValue) × WriterSt :=
  match method w with
  | .error (.message m) => (.error (.valueError m), w)
  | .error .callbackFailure => (.error .passThrough, w)
  | .ok w' => (.ok (.writerSelf w'), w')

/-- `translate_string_method` from `src/_luxem.c`: checks that the argument
is a string before touching the engine — a non-string argument raises a
`TypeError` and leaves the writer untouched; otherwise behaves like
`translate_void_method`. -/
def translate_string_method (method : List Char → WriterSt → Except WErr WriterSt)
    (badargs : String) (arg : PyArg) (w : WriterSt) : (Except PyExc PyValue) × WriterSt :=
  match arg with
  | .str s =>
    match method s w with
    | .error (.message m) => (.error (.valueError m), w)
    | .error .callbackFailure => (.error .passThrough, w)
    | .ok w' => (.ok (.writerSelf w'), w')
  | .nonString => (.error (.typeError badargs), w)

/-- `Writer_object_begin` from `src/_luxem.c`. -/
def Writer_object_begin (w : WriterSt) : (Except PyExc PyValue) × WriterSt :=
  translate_void_method luxem_rawwrite_object_begin w

/-- `Writer_object_end` from `src/_luxem.c`. -/
def Writer_object_end (w : WriterSt) : (Except PyExc PyValue) × WriterSt :=
  translate_void_method luxem_rawwrite_object_end w

/-- `Writer_array_begin` from `src/_luxem.c`. -/
def Writer_array_begin (w : WriterSt) : (Except PyExc PyValue) × WriterSt :=
  translate_void_method luxem_rawwrite_array_begin w

/-- `Writer_array_end` from `src/_luxem.c`. -/
def Writer_array_end (w : WriterSt) : (Except PyExc PyValue) × WriterSt :=
  translate_void_method luxem_rawwrite_array_end w

/-- `Writer_key` from `src/_luxem.c`. -/
def Writer_key (arg : PyArg) (w : WriterSt) : (Except PyExc PyValue) × WriterSt :=
  translate_string_method luxem_rawwrite_key
    "luxem.RawWriter.key requires a single string argument." arg w

/-- `Writer_type` from `src/_luxem.c`. -/
def Writer_type (arg : PyArg) (w : WriterSt) : (Except PyExc PyValue) × WriterSt :=
  translate_string_method luxem_rawwrite_type
    "luxem.RawWriter.type requires a single string argument." arg w

/-- `Writer_primitive` from `src/_luxem.c`. -/
def Writer_primitive (arg : PyArg) (w : WriterSt) : (Except PyExc PyValue) × WriterSt :=
  translate_string_method luxem_rawwrite_primitive
    "luxem.RawWriter.primitive requires a single string argument." arg w

/-- `Writer_init` from `src/_luxem.c`: no target selects the buffer sink
(`luxem_rawwrite_set_buffer_out`); a file target selects the stream sink; any
other target is treated as a write callback. -/
def Writer_init (target : Option Target) : WriterSt :=
  { sink :=
      match target with
      | none => .buffer []
      | some .file => .stream []
      | some (.callbackTarget f) => .callback f,
    stack := [], await := .value, hasType := false }

/-- `Writer_dump` from `src/_luxem.c`: an error unless the writer was left
with the buffer sink (`self->target` unset); on the buffer sink returns
everything written so far. -/
def Writer_dump (w : WriterSt) : (Except PyExc PyValue) × WriterSt :=
  match w.sink with
  | .buffer acc => (.ok (.pyBytes acc), w)
  | .stream _ =>
    (.error (.typeError "luxem.RawWriter.dump can only be used if not using a custom serialize callback for serializing to file."), w)
  | .callback _ =>
    (.error (.typeError "luxem.RawWriter.dump can only be used if not using a custom serialize callback for serializing to file."), w)

/-! ## Theorems: transcoder -/

theorem hexDigit_isHex : ∀ n < 16, isHexChar (hexDigit n) = true := by decide

theorem hexVal_hexDigit : ∀ n < 16, hexVal (hexDigit n) = n := by decide

theorem fromAscii16Aux_toAscii16 : ∀ (b : List Byte) (i : Nat),
    fromAscii16Aux i (toAscii16 b) = .ok b
  | [], _ => rfl
  | x :: rest, i => by
    have hx := x.isLt
    have hd : x.val / 16 < 16 := by omega
    have hm : x.val % 16 < 16 := by omega
    have h1 := hexDigit_isHex _ hd
    have h2 := hexDigit_isHex _ hm
    have v1 := hexVal_hexDigit _ hd
    have v2 := hexVal_hexDigit _ hm
    have ih := fromAscii16Aux_toAscii16 rest (i + 2)
    simp only [toAscii16, fromAscii16Aux, h1, h2, if_true, ih, v1, v2]
    have hval : x.val / 16 * 16 + x.val % 16 = x.val := by omega
    have hlt : x.val / 16 * 16 + x.val % 16 < 256 := by omega
    simp only [Except.ok.injEq, List.cons.injEq, and_true]
    exact Fin.ext (by simpa [Nat.mod_eq_of_lt hlt] using hval)

/-- Claim C4: decoding the encoding of any byte sequence returns it exactly:
`from_ascii16 (to_ascii16 b) = b`. -/
theorem ascii16_roundtrip (b : List Byte) : fromAscii16 (toAscii16 b) = .ok b :=
  fromAscii16Aux_toAscii16 b 0

/-- Claim C8: the ascii16 encoder is total and deterministic (it is a Lean
function), and its output has exactly twice the input's length with every
character in the hexadecimal alphabet. -/
theorem to_ascii16_total_length_hex (b : List Byte) :
    (toAscii16 b).length = 2 * b.length ∧ ∀ c ∈ toAscii16 b, isHexChar c = true := by
  induction b with
  | nil => simp [toAscii16]
  | cons x rest ih =>
    have hx := x.isLt
    refine ⟨by simp [toAscii16, ih.1]; omega, ?_⟩
    intro c hc
    simp only [toAscii16, List.mem_cons] at hc
    rcases hc with h | h | h
    · exact h ▸ hexDigit_isHex _ (by omega)
    · exact h ▸ hexDigit_isHex _ (by omega)
    · exact ih.2 c h

theorem fromAscii16Aux_odd : ∀ (s : List Char) (i : Nat), s.length % 2 = 1 →
    ∃ e, fromAscii16Aux i s = .error e
  | [], _, h => by simp at h
  | [c], i, _ => by
    by_cases hc : isHexChar c = true
    · exact ⟨("odd-length ascii16 input", i), by simp [fromAscii16Aux, hc]⟩
    · have hc' : isHexChar c = false := by simpa using hc
      exact ⟨("invalid ascii16 character", i), by simp [fromAscii16Aux, hc']⟩
  | c1 :: c2 :: rest, i, h => by
    by_cases h1 : isHexChar c1 = true
    · by_cases h2 : isHexChar c2 = true
      · have hr : rest.length % 2 = 1 := by simp [List.length] at h ⊢; omega
        obtain ⟨e, he⟩ := fromAscii16Aux_odd rest (i + 2) hr
        exact ⟨e, by simp [fromAscii16Aux, h1, h2, he]⟩
      · have h2' : isHexChar c2 = false := by simpa using h2
        exact ⟨("invalid ascii16 character", i + 1), by simp [fromAscii16Aux, h1, h2']⟩
    · have h1' : isHexChar c1 = false := by simpa using h1
      exact ⟨("invalid ascii16 character", i), by simp [fromAscii16Aux, h1']⟩

theorem fromAscii16Aux_anyBad : ∀ (s : List Char) (i : Nat),
    (∃ c ∈ s, isHexChar c = false) → ∃ e, fromAscii16Aux i s = .error e
  | [], _, h => by simp at h
  | [c], i, _ => by
    by_cases hc : isHexChar c = true
    · exact ⟨("odd-length ascii16 input", i), by simp [fromAscii16Aux, hc]⟩
    · have hc' : isHexChar c = false := by simpa using hc
      exact ⟨("invalid ascii16 character", i), by simp [fromAscii16Aux, hc']⟩
  | c1 :: c2 :: rest, i, h => by
    by_cases h1 : isHexChar c1 = true
    · by_cases h2 : isHexChar c2 = true
      · obtain ⟨c, hc, hcf⟩ := h
        simp only [List.mem_cons] at hc
        rcases hc with rfl | rfl | hc
        · exact absurd h1 (by simp [hcf])
        · exact absurd h2 (by simp [hcf])
        · obtain ⟨e, he⟩ := fromAscii16Aux_anyBad rest (i + 2) ⟨c, hc, hcf⟩
          exact ⟨e, by simp [fromAscii16Aux, h1, h2, he]⟩
      · have h2' : isHexChar c2 = false := by simpa using h2
        exact ⟨("invalid ascii16 character", i + 1), by simp [fromAscii16Aux, h1, h2']⟩
    · have h1' : isHexChar c1 = false := by simpa using h1
      exact ⟨("invalid ascii16 character", i), by simp [fromAscii16Aux, h1']⟩

theorem fromAscii16Aux_ok : ∀ (s : List Char) (i : Nat), s.length % 2 = 0 →
    (∀ c ∈ s, isHexChar c = true) → ∃ out, fromAscii16Aux i s = .ok out
  | [], _, _, _ => ⟨[], rfl⟩
  | [c], _, h, _ => by simp at h
  | c1 :: c2 :: rest, i, h, hall => by
    have h1 : isHexChar c1 = true := hall c1 (by simp)
    have h2 : isHexChar c2 = true := hall c2 (by simp)
    have hr : rest.length % 2 = 0 := by simp [List.length] at h ⊢; omega
    have hallr : ∀ c ∈ rest, isHexChar c = true := fun c hc => hall c (by simp [hc])
    obtain ⟨out, ho⟩ := fromAscii16Aux_ok rest (i + 2) hr hallr
    refine ⟨⟨(hexVal c1 * 16 + hexVal c2) % 256, Nat.mod_lt _ (by norm_num)⟩ :: out, ?_⟩
    simp [fromAscii16Aux, h1, h2, ho]

theorem fromAscii16Aux_firstBad : ∀ (s : List Char) (i k : Nat) (hk : k < s.length),
    isHexChar (s.get ⟨k, hk⟩) = false →
    (∀ c ∈ s.take k, isHexChar c = true) →
    ∃ m, fromAscii16Aux i s = .error (m, i + k)
  | [], _, k, hk, _, _ => by simp at hk
  | [c], i, k, hk, hbad, _ => by
    have hk0 : k = 0 := by simp at hk; omega
    subst hk0
    simp only [List.get] at hbad
    exact ⟨"invalid ascii16 character", by simp [fromAscii16Aux, hbad]⟩
  | c1 :: c2 :: rest, i, k, hk, hbad, hpre => by
    match k with
    | 0 =>
      simp only [List.get] at hbad
      exact ⟨"invalid ascii16 character", by simp [fromAscii16Aux, hbad]⟩
    | 1 =>
      have h1 : isHexChar c1 = true := hpre c1 (by simp)
      simp only [List.get] at hbad
      exact ⟨"invalid ascii16 character", by simp [fromAscii16Aux, h1, hbad]⟩
    | k + 2 =>
      have h1 : isHexChar c1 = true := hpre c1 (by simp)
      have h2 : isHexChar c2 = true := hpre c2 (by simp)
      have hk' : k < rest.length := by simp at hk; omega
      have hbad' : isHexChar (rest.get ⟨k, hk'⟩) = false := by
        simpa [List.get] using hbad
      have hpre' : ∀ c ∈ rest.take k, isHexChar c = true := by
        intro c hc
        exact hpre c (by simp [hc])
      obtain ⟨m, hm⟩ := fromAscii16Aux_firstBad rest (i + 2) k hk' hbad' hpre'
      refine ⟨m, ?_⟩
      have he : i + 2 + k = i + (k + 2) := by omega
      simp only [fromAscii16Aux, h1, h2, if_true, hm, he]

/-- Claim C5: `from_ascii16` fails, with a message and an offset, exactly on
odd-length input or input containing a character outside the hexadecimal
alphabet; when an offending character exists, the reported offset is that of
the first one; otherwise decoding succeeds. -/
theorem from_ascii16_error_spec (s : List Char) :
    (s.length % 2 = 1 → ∃ e, fromAscii16 s = .error e)
    ∧ ((∃ c ∈ s, isHexChar c = false) → ∃ e, fromAscii16 s = .error e)
    ∧ (∀ k, (hk : k < s.length) → isHexChar (s.get ⟨k, hk⟩) = false →
        (∀ c ∈ s.take k, isHexChar c = true) → ∃ m, fromAscii16 s = .error (m, k))
    ∧ (s.length % 2 = 0 → (∀ c ∈ s, isHexChar c = true) → ∃ out, fromAscii16 s = .ok out) := by
  refine ⟨fun h => fromAscii16Aux_odd s 0 h, fun h => fromAscii16Aux_anyBad s 0 h,
    fun k hk hb hp => ?_, fun h1 h2 => fromAscii16Aux_ok s 0 h1 h2⟩
  simpa using fromAscii16Aux_firstBad s 0 k hk hb hp

/-- Witness for C5: decoding the concrete input `0!` reports the first
offending character's offset, 1. -/
theorem from_ascii16_error_spec_witness :
    ∃ m, fromAscii16 ['0', '!'] = .error (m, 1) :=
  (from_ascii16_error_spec ['0', '!']).2.2.1 1 (by decide) (by decide) (by decide)

/-! ## Theorems: parser -/

theorem step_pos : ∀ (st : PState) (c : Char) (r : PState × Option Event),
    step st c = .ok r → r.1.pos = st.pos + 1 := by
  intro st c r h
  obtain ⟨stack, phase, pos⟩ := st
  cases phase <;> simp only [step] at h <;> repeat' split at h
  all_goals
    first
      | (injection h with h; subst h; rfl)
      | exact Except.noConfusion h

theorem run_pos (f : Event → Bool) : ∀ (s : List Char) (st st' : PState),
    (run f st s).2 = .ok st' → st'.pos = st.pos + s.length
  | [], st, st', h => by
    simp only [run] at h
    injection h with h
    subst h
    rfl
  | c :: rest, st, st', h => by
    simp only [run] at h
    cases hs : step st c with
    | error e => rw [hs] at h; simp at h
    | ok p =>
      obtain ⟨st1, oev⟩ := p
      rw [hs] at h
      have hp : st1.pos = st.pos + 1 := step_pos st c (st1, oev) hs
      cases oev with
      | none =>
        dsimp only at h
        have hr := run_pos f rest st1 st' h
        simp only [List.length_cons]
        omega
      | some ev =>
        dsimp only at h
        by_cases hf : f ev = true
        · rw [if_pos hf] at h
          dsimp only at h
          have hr := run_pos f rest st1 st' h
          simp only [List.length_cons]
          omega
        · rw [if_neg hf] at h
          simp at h

theorem run_append_err (f : Event → Bool) (b : List Char) : ∀ (a : List Char) (st : PState)
    (evs : List Event) (e : FeedError),
    run f st a = (evs, .error e) → run f st (a ++ b) = (evs, .error e)
  | [], st, evs, e, h => by
    simp only [run] at h
    exact absurd (congrArg Prod.snd h) (by simp)
  | c :: a, st, evs, e, h => by
    simp only [List.cons_append, run] at h ⊢
    cases hs : step st c with
    | error e' =>
      rw [hs] at h
      exact h
    | ok p =>
      obtain ⟨st1, oev⟩ := p
      rw [hs] at h
      cases oev with
      | none => exact run_append_err f b a st1 evs e h
      | some ev =>
        dsimp only at h ⊢
        by_cases hf : f ev = true
        · rw [if_pos hf] at h ⊢
          cases ha : run f st1 a with
          | mk evs1 r1 =>
            rw [ha] at h
            dsimp only at h
            cases r1 with
            | error e1 =>
              have hh1 : ev :: evs1 = evs := congrArg Prod.fst h
              have hh2 : Except.error (α := PState) e1 = Except.error e := congrArg Prod.snd h
              injection hh2 with hh2
              subst hh2
              subst hh1
              exact congrArg (fun p => (ev :: p.1, p.2)) (run_append_err f b a st1 evs1 e1 ha)
            | ok st2 => exact absurd (congrArg Prod.snd h) (by simp)
        · rw [if_neg hf] at h ⊢
          exact h

theorem run_append_ok (f : Event → Bool) (b : List Char) : ∀ (a : List Char) (st : PState)
    (evs : List Event) (st1 : PState),
    run f st a = (evs, .ok st1) →
    run f st (a ++ b) = (evs ++ (run f st1 b).1, (run f st1 b).2)
  | [], st, evs, st1, h => by
    simp only [run] at h
    have h1 : ([] : List Event) = evs := congrArg Prod.fst h
    have h2 : Except.ok (ε := FeedError) st = Except.ok st1 := congrArg Prod.snd h
    injection h2 with h2
    subst h2
    subst h1
    simp
  | c :: a, st, evs, st1, h => by
    simp only [List.cons_append, run] at h ⊢
    cases hs : step st c with
    | error e' =>
      rw [hs] at h
      exact absurd (congrArg Prod.snd h) (by simp)
    | ok p =>
      obtain ⟨st0, oev⟩ := p
      rw [hs] at h
      cases oev with
      | none => exact run_append_ok f b a st0 evs st1 h
      | some ev =>
        dsimp only at h ⊢
        by_cases hf : f ev = true
        · rw [if_pos hf] at h ⊢
          cases ha : run f st0 a with
          | mk evs1 r1 =>
            rw [ha] at h
            dsimp only at h
            cases r1 with
            | error e1 => exact absurd (congrArg Prod.snd h) (by simp)
            | ok st2 =>
              have hh1 : ev :: evs1 = evs := congrArg Prod.fst h
              have hh2 : Except.ok (ε := FeedError) st2 = Except.ok st1 := congrArg Prod.snd h
              injection hh2 with hh2
              subst hh2
              subst hh1
              exact congrArg (fun p => (ev :: p.1, p.2)) (run_append_ok f b a st0 evs1 st2 ha)
        · rw [if_neg hf] at h ⊢
          exact absurd (congrArg Prod.snd h) (by simp)

theorem feed_append_true (f : Event → Bool) (chunk b : List Char) (st : PState)
    (evs1 : List Event) (st1 : PState) (hc : run f st chunk = (evs1, .ok st1)) :
    (feed f st (chunk ++ b) true).1 = evs1 ++ (feed f st1 b true).1
    ∧ (∀ st2 n, (feed f st (chunk ++ b) true).2 = .ok (st2, n) →
        ∃ m, (feed f st1 b true).2 = .ok (st2, m)) := by
  have hw := run_append_ok f b chunk st evs1 st1 hc
  simp only [feed, hw]
  cases hq : run f st1 b with
  | mk evs2 r2 =>
    cases r2 with
    | error e2 => exact ⟨by simp, by intro st2 n hcontra; simp at hcontra⟩
    | ok st3 =>
      cases hfin : finalize st3 with
      | error e3 => exact ⟨by simp [hfin], by intro st2 n hcontra; simp [hfin] at hcontra⟩
      | ok u =>
        refine ⟨by simp [hfin], ?_⟩
        intro st2 n h0
        simp [hfin] at h0
        obtain ⟨rfl, rfl⟩ := h0
        exact ⟨b.length, by simp [hfin]⟩

theorem feedChunks_join (f : Event → Bool) : ∀ (chunks : List (List Char)) (st : PState)
    (evs : List Event) (st' : PState) (n : Nat),
    feed f st chunks.flatten true = (evs, .ok (st', n)) →
    chunks ≠ [] →
    (feedChunks f st chunks).1 = evs ∧ ∃ m, (feedChunks f st chunks).2 = .ok (st', m)
  | [], _, _, _, _, _, hne => absurd rfl hne
  | [chunk], st, evs, st', n, h, _ => by
    simp only [List.flatten_cons, List.flatten_nil, List.append_nil] at h
    refine ⟨?_, n, ?_⟩
    · show (feed f st chunk true).1 = evs
      exact congrArg Prod.fst h
    · show (feed f st chunk true).2 = .ok (st', n)
      exact congrArg Prod.snd h
  | chunk :: r :: rs, st, evs, st', n, h, _ => by
    have h' : feed f st (chunk ++ (r :: rs).flatten) true = (evs, .ok (st', n)) := h
    cases hc : run f st chunk with
    | mk evs1 r1 =>
      cases r1 with
      | error e =>
        exfalso
        have hw := run_append_err f ((r :: rs).flatten) chunk st evs1 e hc
        simp only [feed, hw] at h'
        exact absurd (congrArg Prod.snd h') (by simp)
      | ok st1 =>
        obtain ⟨hA, hC⟩ := feed_append_true f chunk ((r :: rs).flatten) st evs1 st1 hc
        rw [h'] at hA
        dsimp only at hA
        obtain ⟨m2, hm2⟩ := hC st' n (by rw [h'])
        have hfeed : feed f st1 ((r :: rs).flatten) true
            = ((feed f st1 ((r :: rs).flatten) true).1, .ok (st', m2)) := by
          rw [← hm2]
        obtain ⟨ih1, m3, ih2⟩ := feedChunks_join f (r :: rs) st1 _ st' m2 hfeed (by simp)
        have hcf : feed f st chunk false = (evs1, .ok (st1, chunk.length)) := by
          simp [feed, hc]
        have hsteps : feedChunks f st (chunk :: r :: rs)
            = (evs1 ++ (feedChunks f st1 (r :: rs)).1, (feedChunks f st1 (r :: rs)).2) := by
          simp [feedChunks, hcf]
        refine ⟨?_, m3, ?_⟩
        · rw [hsteps]
          dsimp only
          rw [ih1, hA]
        · rw [hsteps]
          dsimp only
          exact ih2

/-- Claim C1: for every well-formed document and every way of splitting its
bytes into chunks, feeding the chunks in order to one reader (`finish=false`
on all but the last, `finish=true` on the last) delivers exactly the same
event sequence, and succeeds, just like feeding the document whole with
`finish=true`. -/
theorem chunked_feed_eq_whole (chunks : List (List Char)) (evs : List Event)
    (st' : PState) (n : Nat) (hne : chunks ≠ [])
    (hwf : feed pureListener initState chunks.flatten true = (evs, .ok (st', n))) :
    (feedChunks pureListener initState chunks).1 = evs
    ∧ ∃ m, (feedChunks pureListener initState chunks).2 = .ok (st', m) :=
  feedChunks_join pureListener chunks initState evs st' n hwf hne

/-- Witness for C1: the two-byte document `[]` split into two one-byte
chunks delivers the same events as the whole document. -/
theorem chunked_feed_eq_whole_witness :
    (feedChunks pureListener initState [['['], [']']]).1 = [Event.arrayBegin, Event.arrayEnd]
    ∧ ∃ m, (feedChunks pureListener initState [['['], [']']]).2 =
        .ok ({ stack := [], phase := .afterValue, pos := 2 }, m) :=
  chunked_feed_eq_whole [['['], [']']] [Event.arrayBegin, Event.arrayEnd]
    { stack := [], phase := .afterValue, pos := 2 } 2 (by decide) (by rfl)

/-- Claim C3: feeding a structurally incomplete document with `finish=false`
consumes the whole input and raises no error; a subsequent feed on the same
instance with `finish=true` and no further data, while a structure remains
open, raises a syntax error carrying a message and the cumulative byte
position. -/
theorem incomplete_then_finish_syntax_error (doc : List Char) (st' : PState)
    (hclean : (run pureListener initState doc).2 = .ok st')
    (hopen : st'.stack ≠ []) :
    feed pureListener initState doc false
      = ((run pureListener initState doc).1, .ok (st', doc.length))
    ∧ ∃ m, feed pureListener st' [] true = ([], .error (.syntaxError m doc.length)) := by
  have hpos : st'.pos = doc.length := by
    have h := run_pos pureListener doc initState st' hclean
    simpa [initState] using h
  have hfin : finalize st' = .error (.syntaxError "incomplete document" st'.pos) := by
    unfold finalize
    cases hst : st'.stack with
    | nil => exact absurd hst hopen
    | cons a l => rfl
  constructor
  · cases hr : run pureListener initState doc with
    | mk evs r =>
      rw [hr] at hclean
      dsimp only at hclean
      subst hclean
      simp [feed, hr]
  · exact ⟨"incomplete document", by simp [feed, run, hfin, hpos]⟩

/-- Witness for C3: the one-byte document `[` leaves an array open; feeding
it with `finish=false` succeeds consuming 1 byte, finishing then fails at
offset 1. -/
theorem incomplete_then_finish_syntax_error_witness :
    feed pureListener initState ['['] false
      = ((run pureListener initState ['[']).1,
         .ok ({ stack := [Frame.arr], phase := .expectValue false, pos := 1 }, 1))
    ∧ ∃ m, feed pureListener { stack := [Frame.arr], phase := .expectValue false, pos := 1 } [] true
        = ([], .error (.syntaxError m 1)) :=
  incomplete_then_finish_syntax_error ['[']
    { stack := [Frame.arr], phase := .expectValue false, pos := 1 } (by rfl) (by decide)

theorem run_listener_cutoff (f : Event → Bool) : ∀ (s : List Char) (st : PState) (k : Nat)
    (ev : Event),
    ((run pureListener st s).1).get? k = some ev →
    f ev = false →
    (∀ e ∈ ((run pureListener st s).1).take k, f e = true) →
    run f st s = (((run pureListener st s).1).take k, .error .callbackFailure)
  | [], st, k, ev, hev, _, _ => by
    simp only [run] at hev
    simp at hev
  | c :: rest, st, k, ev, hev, hfail, hpre => by
    simp only [run] at hev hpre ⊢
    cases hs : step st c with
    | error e =>
      rw [hs] at hev
      simp at hev
    | ok p =>
      obtain ⟨st1, oev⟩ := p
      rw [hs] at hev hpre
      cases oev with
      | none => exact run_listener_cutoff f rest st1 k ev hev hfail hpre
      | some ev1 =>
        dsimp only at hev hpre ⊢
        have htrue : pureListener ev1 = true := rfl
        rw [if_pos htrue] at hev hpre
        dsimp only at hev hpre
        cases k with
        | zero =>
          simp only [List.get?_cons_zero, Option.some.injEq] at hev
          subst hev
          rw [if_neg (by simp [hfail])]
          simp
        | succ k' =>
          have hf1 : f ev1 = true := hpre ev1 (by simp)
          rw [if_pos hf1]
          have hpre' : ∀ e ∈ ((run pureListener st1 rest).1).take k', f e = true := by
            intro e he
            exact hpre e (by simp [he])
          have ih := run_listener_cutoff f rest st1 k' ev
            (by simpa using hev) hfail hpre'
          rw [ih]
          simp [htrue]

/-- Claim C2: if a registered listener callback fails during a feed call,
the feed aborts at that point: exactly the events before the failing one are
delivered, the call reports the opaque callback failure (which
`format_context_error` passes through as the embedder's own exception,
never re-described), and no syntax error is synthesized. -/
theorem callback_failure_aborts (f : Event → Bool) (st : PState) (s : List Char)
    (finish : Bool) (k : Nat) (ev : Event)
    (hev : ((run pureListener st s).1).get? k = some ev)
    (hfail : f ev = false)
    (hpre : ∀ e ∈ ((run pureListener st s).1).take k, f e = true) :
    feed f st s finish = (((run pureListener st s).1).take k, .error .callbackFailure)
    ∧ format_context_error FeedError.callbackFailure = PyExc.passThrough := by
  have h := run_listener_cutoff f s st k ev hev hfail hpre
  exact ⟨by simp [feed, h], rfl⟩

/-- Witness for C2: a listener whose `key` callback fails, fed the document
`{"a":"1"}`: only the object-begin event is delivered, and the result is the
opaque callback failure. -/
theorem callback_failure_aborts_witness :
    feed (fun e => match e with | Event.key _ => false | _ => true) initState
        ['\x7b', '"', 'a', '"', ':', '"', '1', '"', '\x7d'] true
      = ([Event.objectBegin], .error .callbackFailure)
    ∧ format_context_error FeedError.callbackFailure = PyExc.passThrough :=
  callback_failure_aborts (fun e => match e with | Event.key _ => false | _ => true)
    initState ['\x7b', '"', 'a', '"', ':', '"', '1', '"', '\x7d'] true 1 (Event.key ['a'])
    (by rfl) (by rfl) (by decide)

/-- Claim C7: during a streamed feed, the action trace is strictly
suspend/read/resume paired: the suspend hook precedes every physical
blocking read, the resume hook follows it before any bytes reach the state
machine, every suspend has exactly one matching resume (no nesting, no
stray resume) even on early termination by error, and no parsing work
occurs between a suspend and its resume. -/
theorem feed_stream_suspend_resume_paired (f : Event → Bool) (st : PState)
    (src : List (List Char)) : paired (feedFile f st src).1 = true := by
  induction src generalizing st with
  | nil => rfl
  | cons chunk rest ih =>
    simp only [feedFile]
    cases hr : run f st chunk with
    | mk evs r =>
      cases r with
      | error e => rfl
      | ok st1 =>
        simp only [paired]
        exact ih st1

/-! ## Theorems: writer -/

theorem translate_void_ok (method : WriterSt → Except WErr WriterSt) (w : WriterSt)
    (v : PyValue) (h : (translate_void_method method w).1 = .ok v) :
    v = .writerSelf (translate_void_method method w).2 := by
  unfold translate_void_method at h ⊢
  cases hm : method w with
  | error e =>
    rw [hm] at h
    cases e with
    | message m => simp at h
    | callbackFailure => simp at h
  | ok w' =>
    rw [hm] at h
    dsimp only at h
    injection h with h
    exact h.symm

theorem translate_string_ok (method : List Char → WriterSt → Except WErr WriterSt)
    (badargs : String) (arg : PyArg) (w : WriterSt) (v : PyValue)
    (h : (translate_string_method method badargs arg w).1 = .ok v) :
    v = .writerSelf (translate_string_method method badargs arg w).2 := by
  unfold translate_string_method at h ⊢
  cases arg with
  | nonString => simp at h
  | str s =>
    dsimp only at h ⊢
    cases hm : method s w with
    | error e =>
      rw [hm] at h
      cases e with
      | message m => simp at h
      | callbackFailure => simp at h
    | ok w' =>
      rw [hm] at h
      dsimp only at h
      injection h with h
      exact h.symm

/-- Claim C9: every successful Writer call among `object_begin`,
`object_end`, `array_begin`, `array_end`, `key`, `type` and `primitive`
returns the Writer instance itself, so calls can be chained. -/
theorem writer_methods_return_self (w : WriterSt) (a : PyArg) (v : PyValue) :
    ((Writer_object_begin w).1 = .ok v → v = .writerSelf (Writer_object_begin w).2)
    ∧ ((Writer_object_end w).1 = .ok v → v = .writerSelf (Writer_object_end w).2)
    ∧ ((Writer_array_begin w).1 = .ok v → v = .writerSelf (Writer_array_begin w).2)
    ∧ ((Writer_array_end w).1 = .ok v → v = .writerSelf (Writer_array_end w).2)
    ∧ ((Writer_key a w).1 = .ok v → v = .writerSelf (Writer_key a w).2)
    ∧ ((Writer_type a w).1 = .ok v → v = .writerSelf (Writer_type a w).2)
    ∧ ((Writer_primitive a w).1 = .ok v → v = .writerSelf (Writer_primitive a w).2) :=
  ⟨translate_void_ok luxem_rawwrite_object_begin w v,
   translate_void_ok luxem_rawwrite_object_end w v,
   translate_void_ok luxem_rawwrite_array_begin w v,
   translate_void_ok luxem_rawwrite_array_end w v,
   translate_string_ok luxem_rawwrite_key _ a w v,
   translate_string_ok luxem_rawwrite_type _ a w v,
   translate_string_ok luxem_rawwrite_primitive _ a w v⟩

/-- Witness for C9: `object_begin` on a fresh buffer writer succeeds and
returns the writer itself. -/
theorem writer_methods_return_self_witness :
    PyValue.writerSelf
        { sink := Sink.buffer ['\x7b'], stack := [Frame.obj],
          await := WAwait.key, hasType := false }
      = PyValue.writerSelf ((Writer_object_begin (Writer_init none)).2) :=
  (writer_methods_return_self (Writer_init none) PyArg.nonString
    (PyValue.writerSelf
      { sink := Sink.buffer ['\x7b'], stack := [Frame.obj],
        await := WAwait.key, hasType := false })).1 rfl

/-- Claim C6: `dump` succeeds exactly on the buffer sink, which a Writer has
exactly when it was constructed with no target; it then returns all bytes
written so far, and on a stream- or callback-sink writer it raises an
error. -/
theorem dump_buffer_only (w : WriterSt) (t : Option Target) :
    ((∃ v, (Writer_dump w).1 = .ok v) ↔ (∃ acc, w.sink = .buffer acc))
    ∧ ((∃ acc, (Writer_init t).sink = .buffer acc) ↔ t = none)
    ∧ (∀ acc, w.sink = .buffer acc → Writer_dump w = (.ok (.pyBytes acc), w))
    ∧ ((∀ acc, w.sink ≠ .buffer acc) →
        ∃ m, Writer_dump w = (.error (.typeError m), w)) := by
  refine ⟨?_, ?_, ?_, ?_⟩
  · constructor
    · intro hv
      obtain ⟨v, hv⟩ := hv
      cases hw : w.sink with
      | buffer acc => exact ⟨acc, rfl⟩
      | stream acc => unfold Writer_dump at hv; rw [hw] at hv; simp at hv
      | callback g => unfold Writer_dump at hv; rw [hw] at hv; simp at hv
    · intro hacc
      obtain ⟨acc, hacc⟩ := hacc
      exact ⟨.pyBytes acc, by unfold Writer_dump; rw [hacc]⟩
  · constructor
    · intro hacc
      obtain ⟨acc, hacc⟩ := hacc
      cases t with
      | none => rfl
      | some tg => cases tg <;> simp [Writer_init] at hacc
    · intro ht
      subst ht
      exact ⟨[], rfl⟩
  · intro acc hacc
    unfold Writer_dump
    rw [hacc]
  · intro hnb
    cases hw : w.sink with
    | buffer acc => exact absurd hw (hnb acc)
    | stream acc =>
      exact ⟨_, by unfold Writer_dump; rw [hw]⟩
    | callback g =>
      exact ⟨_, by unfold Writer_dump; rw [hw]⟩

/-- Witness for C6: `dump` on a freshly constructed buffer-sink Writer
returns the (empty) bytes written so far. -/
theorem dump_buffer_only_witness :
    Writer_dump (Writer_init none) = (.ok (.pyBytes []), Writer_init none) :=
  (dump_buffer_only (Writer_init none) none).2.2.1 [] rfl

/-- Claim C10: calling `key`, `type` or `primitive` with a non-string
argument raises a `TypeError` before the engine is invoked: the writer state
is returned unchanged, so no bytes reach the sink and the failed call is
atomic. -/
theorem nonstring_arg_atomic (w : WriterSt) :
    Writer_key PyArg.nonString w
      = (.error (.typeError "luxem.RawWriter.key requires a single string argument."), w)
    ∧ Writer_type PyArg.nonString w
      = (.error (.typeError "luxem.RawWriter.type requires a single string argument."), w)
    ∧ Writer_primitive PyArg.nonString w
      = (.error (.typeError "luxem.RawWriter.primitive requires a single string argument."), w) :=
  ⟨rfl, rfl, rfl⟩
